import Mathlib

/-!
# Verification of `buffer-js-request` (src/Request.js)

A shallow embedding of the single source file `src/Request.js`:

* `JVal` models the JavaScript values the library manipulates (primitives,
  arrays, plain objects, and the omit-worthy values `undefined`, functions
  and symbols).  JavaScript objects are modelled as insertion-ordered
  association lists, and JavaScript numbers are restricted to integers
  (the only numerals the repository's examples use).
* `formatDataPieces` / `formatKeyVal` embed the flattener of
  `src/Request.js` lines 74–119.
* `Request.send`, `Request.get`, `Request.post` embed the dispatcher,
  lines 19–59, with `fetch` abstracted as the `FetchCall` descriptor it
  receives.  A store-passing variant (`Request.sendS` …) additionally
  tracks object identity so that the `Object.assign` mutation behaviour
  of lines 26, 56 and 59 is observable.
-/

set_option maxRecDepth 4096

/-- Decimal digit character, `digitChar n` for `n < 10`. -/
def digitChar (n : Nat) : Char :=
  Char.ofNat (48 + n)

/-- Fueled decimal rendering of a natural number (least significant digit
last).  The fuel only serves to make the recursion structural; `natStr`
always supplies enough. -/
def natCharsAux : Nat → Nat → List Char
  | 0, _ => []
  | fuel + 1, n =>
    if n < 10 then [digitChar n]
    else natCharsAux fuel (n / 10) ++ [digitChar (n % 10)]

/-- Decimal rendering of a natural number, as JavaScript template
interpolation produces for array indices (`${i}` in line 92). -/
def natStr (n : Nat) : String :=
  String.mk (natCharsAux (n + 1) n)

/-- JavaScript values as classified by `getValType` in `src/Request.js`
lines 77–81: the `Object.prototype.toString` tags `String`, `Number`,
`Boolean`, `Null`, `Undefined`, `Function`, `Symbol`, `Array`, `Object`. -/
inductive JVal where
  | str (s : String)
  | num (n : Int)
  | bool (b : Bool)
  | null
  | undef
  | func
  | symbol
  | arr (elems : List JVal)
  | obj (fields : List (String × JVal))

/-- `getValType` (lines 77–81): the tag computed from
`Object.prototype.toString`, with the `[object ` / `]` wrapping removed. -/
def getValType : JVal → String
  | .str _ => "String"
  | .num _ => "Number"
  | .bool _ => "Boolean"
  | .null => "Null"
  | .undef => "Undefined"
  | .func => "Function"
  | .symbol => "Symbol"
  | .arr _ => "Array"
  | .obj _ => "Object"

mutual

/-- `formatKeyVal` (lines 83–114): the recursive visitor.  The `switch`
on `getValType val` is rendered case by case; the accumulator
`dataPieces` that the source pushes onto becomes the returned list, with
pushes appearing in the same left-to-right order. -/
def formatKeyVal (key : String) (val : JVal) : List (String × JVal) :=
  match val with
  | .arr elems => formatArr key 0 elems
  | .obj fields => formatObj key fields
  | .undef => []
  | .func => []
  | .symbol => []
  | v => [(key, v)]

/-- The `val.forEach((arrayVal, i) => …)` loop of lines 88–96, with `i`
the index of the current element. -/
def formatArr (key : String) (i : Nat) : List JVal → List (String × JVal)
  | [] => []
  | v :: rest =>
    (if getValType v = "Array" ∨ getValType v = "Object" then
      formatKeyVal (key ++ "[" ++ natStr i ++ "]") v
    else
      formatKeyVal (key ++ "[]") v) ++ formatArr key (i + 1) rest

/-- The `Object.keys(val).forEach(objKey => …)` loop of line 100. -/
def formatObj (key : String) : List (String × JVal) → List (String × JVal)
  | [] => []
  | (k, v) :: rest => formatKeyVal (key ++ "[" ++ k ++ "]") v ++ formatObj key rest

end

/-- `formatDataPieces` (lines 74–119): visit each top-level key in
insertion order. -/
def formatDataPieces (data : List (String × JVal)) : List (String × JVal) :=
  (data.map (fun kv => formatKeyVal kv.1 kv.2)).flatten

/-! ## The dispatcher (`Request.send` / `Request.get` / `Request.post`) -/

/-- A value stored in a `settings` object: either a string (e.g. the
`method` field) or a `FormData` field list (the `body` the dispatcher
attaches in line 48). -/
inductive SettVal where
  | str (s : String)
  | form (fields : List (String × JVal))

/-- A JavaScript `settings` object: an insertion-ordered association list
of fields. -/
abbrev SettingsObj := List (String × SettVal)

/-- Property lookup `o.k`: the first field named `k`. -/
def getField : SettingsObj → String → Option SettVal
  | [], _ => none
  | (k', v') :: fs, k => if k' = k then some v' else getField fs k

/-- Property assignment `o.k = v`: overwrite the existing field in place,
or append a new one. -/
def setField : SettingsObj → String → SettVal → SettingsObj
  | [], k, v => [(k, v)]
  | (k', v') :: fs, k, v => if k' = k then (k', v) :: fs else (k', v') :: setField fs k v

/-- `Object.assign(target, source)`: copy each field of `source` onto
`target`, in order, returning the (mutated) target. -/
def objAssign (target : SettingsObj) (source : SettingsObj) : SettingsObj :=
  source.foldl (fun t kv => setField t kv.1 kv.2) target

/-- The characters `encodeURIComponent` leaves unescaped:
`A–Z a–z 0–9 - _ . ! ~ * ' ( )`. -/
def uriUnreserved (c : Char) : Bool :=
  c.isAlphanum || c = '-' || c = '_' || c = '.' || c = '!' || c = '~' ||
    c = '*' || c = '\x27' || c = '(' || c = ')'

/-- Upper-case hexadecimal digit for `n < 16`. -/
def hexDigitChar (n : Nat) : Char :=
  if n < 10 then Char.ofNat (48 + n) else Char.ofNat (55 + n)

/-- `%XY` escape of one byte. -/
def pctByte (b : Nat) : List Char :=
  ['%', hexDigitChar (b / 16), hexDigitChar (b % 16)]

/-- UTF-8 encoding of one Unicode scalar value, as the byte sequence
`encodeURIComponent` percent-escapes. -/
def utf8Bytes (c : Char) : List Nat :=
  let n := c.toNat
  if n < 0x80 then [n]
  else if n < 0x800 then [0xC0 + n / 64, 0x80 + n % 64]
  else if n < 0x10000 then [0xE0 + n / 4096, 0x80 + n / 64 % 64, 0x80 + n % 64]
  else [0xF0 + n / 262144, 0x80 + n / 4096 % 64, 0x80 + n / 64 % 64, 0x80 + n % 64]

/-- `encodeURIComponent` (used at line 36): keep unreserved characters,
percent-escape the UTF-8 bytes of every other character. -/
def encodeURIComponent (s : String) : String :=
  String.mk ((s.data.map (fun c =>
    if uriUnreserved c then [c] else ((utf8Bytes c).map pctByte).flatten)).flatten)

/-- JavaScript string coercion of the integers the embedding models. -/
def intStr (i : Int) : String :=
  if i < 0 then "-" ++ natStr (-i).toNat else natStr i.toNat

/-- JavaScript string coercion applied by `encodeURIComponent(val)` to a
flattened (hence terminal) value. -/
def jsToString : JVal → String
  | .str s => s
  | .num n => intStr n
  | .bool b => if b then "true" else "false"
  | .null => "null"
  | .undef => "undefined"
  | _ => ""

/-- The descriptor `fetch` finally receives (line 52): the possibly
query-extended URL and the merged settings object. -/
structure FetchCall where
  url : String
  settings : SettingsObj

/-- The query string built in lines 35–41: `key=encodeURIComponent(val)`
pairs joined by `&` (keys are left unencoded). -/
def queryString (dataPieces : List (String × JVal)) : String :=
  String.intercalate "&" (dataPieces.map (fun kv => kv.1 ++ "=" ++ encodeURIComponent (jsToString kv.2)))

namespace Request

/-- The `defaultSettings` literal of lines 20–22. -/
def defaultSettings : SettingsObj := [("method", SettVal.str "GET")]

/-- `Request.send` (lines 19–53), with `fetch` abstracted: returns the
`FetchCall` descriptor passed to `fetch`.  The `switch` of line 31
matches `settings.method` against the literal strings `'GET'` and
`'HEAD'`; every other value falls to the `default:` branch which attaches
the flattened pairs as the `body`. -/
def send (url : String) (data : List (String × JVal)) (settings : SettingsObj) :
    FetchCall :=
  let dataPieces := formatDataPieces data
  let s := objAssign defaultSettings settings
  match getField s "method" with
  | some (SettVal.str "GET") | some (SettVal.str "HEAD") =>
    { url := url ++ "?" ++ queryString dataPieces, settings := s }
  | _ =>
    { url := url, settings := setField s "body" (SettVal.form dataPieces) }

/-- `Request.get` (lines 55–56): force `method` to `'GET'` by
`Object.assign(settings, { method: 'GET' })` and delegate to `send`. -/
def get (url : String) (data : List (String × JVal)) (settings : SettingsObj) : FetchCall :=
  send url data (objAssign settings [("method", SettVal.str "GET")])

/-- `Request.post` (lines 58–59): force `method` to `'POST'`. -/
def post (url : String) (data : List (String × JVal)) (settings : SettingsObj) : FetchCall :=
  send url data (objAssign settings [("method", SettVal.str "POST")])

end Request

/-! ## Store-passing dispatcher

`Request.get`/`Request.post` pass the caller's `settings` object itself as
the *target* of `Object.assign`, which mutates it, while `Request.send`
uses the fresh `defaultSettings` literal as the target.  To make that
observable, the same three functions are re-run over an explicit store of
settings objects: the caller's object is a reference into the store, the
`defaultSettings` literal is allocated at a fresh slot, and every
`Object.assign`/property write updates its target's slot. -/

/-- A reference to a settings object: an index into the store. -/
abbrev Ref := Nat

/-- The store of allocated settings objects. -/
abbrev Store := List SettingsObj

/-- Dereference. -/
def storeGet (σ : Store) (r : Ref) : SettingsObj :=
  (σ.get? r).getD []

/-- Overwrite the object at `r`. -/
def storeSet (σ : Store) (r : Ref) (o : SettingsObj) : Store :=
  σ.set r o

namespace Request

/-- `Request.send` with explicit object identity: the `defaultSettings`
object literal (lines 20–22) is allocated fresh, line 26 mutates *it*
(`Object.assign(defaultSettings, settings)`), and line 48 writes `body`
onto that same merged object.  The caller's object at `r` is only ever
read. -/
def sendS (url : String) (data : List (String × JVal)) (r : Ref) (σ : Store) :
    FetchCall × Store :=
  let dataPieces := formatDataPieces data
  let defRef := σ.length
  let σ₁ := σ ++ [defaultSettings]
  let σ₂ := storeSet σ₁ defRef (objAssign (storeGet σ₁ defRef) (storeGet σ₁ r))
  let s := storeGet σ₂ defRef
  match getField s "method" with
  | some (SettVal.str "GET") | some (SettVal.str "HEAD") =>
    ({ url := url ++ "?" ++ queryString dataPieces, settings := s }, σ₂)
  | _ =>
    let σ₃ := storeSet σ₂ defRef (setField s "body" (SettVal.form dataPieces))
    ({ url := url, settings := storeGet σ₃ defRef }, σ₃)

/-- `Request.get` with explicit object identity:
`Object.assign(settings, { method: 'GET' })` mutates the caller's object
at `r` before delegating to `send`. -/
def getS (url : String) (data : List (String × JVal)) (r : Ref) (σ : Store) :
    FetchCall × Store :=
  sendS url data r (storeSet σ r (objAssign (storeGet σ r) [("method", SettVal.str "GET")]))

/-- `Request.post` with explicit object identity. -/
def postS (url : String) (data : List (String × JVal)) (r : Ref) (σ : Store) :
    FetchCall × Store :=
  sendS url data r (storeSet σ r (objAssign (storeGet σ r) [("method", SettVal.str "POST")]))

end Request

/-! ## Auxiliary definitions for the flattener theorems -/

/-- The composite test of line 91: `arrayValType === 'Array' ||
arrayValType === 'Object'`, as a Boolean. -/
def isCompositeB (v : JVal) : Bool :=
  getValType v = "Array" || getValType v = "Object"

/-- The omit test of lines 103–105, as a Boolean. -/
def isOmitB (v : JVal) : Bool :=
  getValType v = "Undefined" || getValType v = "Function" || getValType v = "Symbol"

mutual

/-- Erase every omit-worthy field from every mapping in a value, leaving
everything else (array elements included, so indices are unchanged). -/
def filterOmit : JVal → JVal
  | .arr elems => .arr (filterOmitArr elems)
  | .obj fields => .obj (filterOmitObj fields)
  | v => v

/-- `filterOmit` mapped over array elements. -/
def filterOmitArr : List JVal → List JVal
  | [] => []
  | v :: rest => filterOmit v :: filterOmitArr rest

/-- `filterOmit` over the fields of a mapping, dropping omit-worthy
values. -/
def filterOmitObj : List (String × JVal) → List (String × JVal)
  | [] => []
  | (k, v) :: rest =>
    if isOmitB v then filterOmitObj rest
    else (k, filterOmit v) :: filterOmitObj rest

end

mutual

/-- The paths through a value: like `formatKeyVal`, but recording the
bracket segments of each emitted pair as a list instead of gluing them
onto the key string.  An array element visited under `key[]` records the
empty segment `""`. -/
def piecesP : JVal → List (List String × JVal)
  | .arr elems => piecesArr 0 elems
  | .obj fields => piecesObj fields
  | .undef => []
  | .func => []
  | .symbol => []
  | v => [([], v)]

/-- Paths through the elements of an array, starting at index `i`. -/
def piecesArr (i : Nat) : List JVal → List (List String × JVal)
  | [] => []
  | v :: rest =>
    (if isCompositeB v then (piecesP v).map (fun pv => (natStr i :: pv.1, pv.2))
     else (piecesP v).map (fun pv => ("" :: pv.1, pv.2))) ++ piecesArr (i + 1) rest

/-- Paths through the fields of a mapping. -/
def piecesObj : List (String × JVal) → List (List String × JVal)
  | [] => []
  | (k, v) :: rest => (piecesP v).map (fun pv => (k :: pv.1, pv.2)) ++ piecesObj rest

end

/-- Glue bracket segments onto a key: `renderTail [s₁, s₂] = "[s₁][s₂]"`. -/
def renderTail (segs : List String) : String :=
  segs.foldr (fun s acc => "[" ++ s ++ "]" ++ acc) ""

/-- Render a full path: head key followed by bracketed segments. -/
def renderPath : List String → String
  | [] => ""
  | k :: segs => k ++ renderTail segs

/-- `true` when the string contains neither `[` nor `]`. -/
def bracketFreeB (s : String) : Bool :=
  !(s.data.contains '[') && !(s.data.contains ']')

mutual

/-- The structural conditions under which the round-trip reconstruction
of C9 is proved: every mapping key is bracket-free and unrepeated, and
every array element is itself composite or omit-worthy (so no
empty-bracket key is ever emitted). -/
def good : JVal → Bool
  | .arr elems => goodArr elems
  | .obj fields => goodObj fields
  | _ => true

/-- `good` over array elements. -/
def goodArr : List JVal → Bool
  | [] => true
  | v :: rest => (isCompositeB v || isOmitB v) && good v && goodArr rest

/-- `good` over mapping fields. -/
def goodObj : List (String × JVal) → Bool
  | [] => true
  | (k, v) :: rest =>
    bracketFreeB k && !(rest.any (fun kv => kv.1 == k)) && good v && goodObj rest

end

/-! ## Reconstruction (modelled from the spec)

`Modelled from the spec:` the repository has no reconstruction code; §8 of
the spec speaks of "rebuilding a mapping from flat pairs using
bracket-path keys".  `parseKey` parses a flat key back into its base key
and bracket segments (falling back to treating the whole key as atomic
when it is not of that shape), and `reconstruct` inserts each pair at the
parsed path into a nested mapping, later pairs overwriting earlier ones
on conflict. -/

/-- Split a character list into the maximal groups separated by `[`.
Always returns at least one group. -/
def splitOnLBrack : List Char → List (List Char)
  | [] => [[]]
  | c :: cs =>
    match splitOnLBrack cs with
    | [] => [[]]
    | g :: gs => if c = '[' then [] :: g :: gs else (c :: g) :: gs

/-- A well-formed bracket group: `seg]` with no `]` inside `seg`. -/
def segOk (g : List Char) : Bool :=
  g.getLast? == some ']' && !(g.dropLast.contains ']')

/-- `Modelled from the spec:` parse a bracket-path key such as
`values[0][a]` into its base key and segment list `("values", ["0", "a"])`.
A key not of that shape is kept whole as an atomic base key. -/
def parseKey (s : String) : String × List String :=
  match splitOnLBrack s.data with
  | [] => (s, [])
  | base :: groups =>
    if !(base.contains ']') && groups.all segOk then
      (String.mk base, groups.map (fun g => String.mk g.dropLast))
    else (s, [])

/-- Insert a value at key `k` of a field list, transforming the existing
value with `go` if the key is present and growing a fresh subtree from an
empty mapping otherwise. -/
def insertField (go : JVal → JVal) (k : String) : List (String × JVal) → List (String × JVal)
  | [] => [(k, go (JVal.obj []))]
  | (k', v') :: fs => if k' = k then (k', go v') :: fs else (k', v') :: insertField go k fs

/-- `Modelled from the spec:` insert `v` at the segment path `p` of a
tree, building mappings along the way and overwriting whatever terminal
value is already there. -/
def insertPath : List String → JVal → JVal → JVal
  | [], v, _ => v
  | k :: rest, v, t =>
    match t with
    | .obj fields => .obj (insertField (insertPath rest v) k fields)
    | _ => .obj (insertField (insertPath rest v) k [])

/-- `Modelled from the spec:` rebuild a mapping from flat pairs by parsing
their bracket-path keys. -/
def reconstruct (pairs : List (String × JVal)) : List (String × JVal) :=
  pairs.foldl
    (fun acc kv => insertField (insertPath (parseKey kv.1).2 kv.2) (parseKey kv.1).1 acc) []

/-- One step of `reconstruct`, acting on a parsed path instead of a flat
key: insert the value at `head`, descending along the segments. -/
def insStep (acc : List (String × JVal)) (pv : List String × JVal) : List (String × JVal) :=
  match pv.1 with
  | [] => acc
  | k :: segs => insertField (insertPath segs pv.2) k acc

/-- Fold `insStep` over a list of path/value pairs. -/
def buildFields (acc : List (String × JVal)) (pps : List (List String × JVal)) :
    List (String × JVal) :=
  pps.foldl insStep acc

/-- Fold `insertPath` over a list of path/value pairs, at the value
level. -/
def buildVal (t : JVal) (pps : List (List String × JVal)) : JVal :=
  pps.foldl (fun u pv => insertPath pv.1 pv.2 u) t

/-- The reconstruction of a single subtree from its own paths. -/
def rebuildVal (v : JVal) : JVal :=
  buildVal (JVal.obj []) (piecesP v)

/-- The reconstruction of a field list: fields whose value contributes no
pair vanish, every other value is rebuilt from its paths. -/
def rebuiltFields (fields : List (String × JVal)) : List (String × JVal) :=
  (fields.filter (fun kv => !(piecesP kv.2).isEmpty)).map (fun kv => (kv.1, rebuildVal kv.2))

/-- An array viewed as a mapping whose keys are the rendered indices,
starting at `i`. -/
def enumFieldsFrom (i : Nat) (elems : List JVal) : List (String × JVal) :=
  (elems.enumFrom i).map (fun ie => (natStr ie.1, ie.2))

/-! ## Lemmas about settings objects -/

theorem getField_setField_self (o : SettingsObj) (k : String) (v : SettVal) :
    getField (setField o k v) k = some v := by
  induction o with
  | nil => simp [setField, getField]
  | cons kv fs ih =>
    obtain ⟨k', v'⟩ := kv
    by_cases h : k' = k <;> simp [setField, getField, h, ih]

theorem getField_setField_ne (o : SettingsObj) (k' k : String) (v : SettVal) (h : k' ≠ k) :
    getField (setField o k' v) k = getField o k := by
  induction o with
  | nil => simp [setField, getField, h]
  | cons kv fs ih =>
    obtain ⟨k₀, v₀⟩ := kv
    by_cases h₀ : k₀ = k' <;> by_cases h₁ : k₀ = k <;>
      simp_all [setField, getField]

theorem getField_eq_none (o : SettingsObj) (k : String) (h : k ∉ o.map Prod.fst) :
    getField o k = none := by
  induction o with
  | nil => rfl
  | cons kv fs ih =>
    obtain ⟨k', v'⟩ := kv
    simp only [List.map_cons, List.mem_cons] at h
    push_neg at h
    simp [getField, Ne.symm h.1, ih h.2]

theorem keys_setField (o : SettingsObj) (k : String) (v : SettVal) :
    (setField o k v).map Prod.fst =
      if k ∈ o.map Prod.fst then o.map Prod.fst else o.map Prod.fst ++ [k] := by
  induction o with
  | nil => simp [setField]
  | cons kv fs ih =>
    obtain ⟨k', v'⟩ := kv
    by_cases h : k' = k
    · simp [setField, h]
    · simp only [setField, if_neg h, List.map_cons, ih]
      by_cases hm : k ∈ fs.map Prod.fst <;> simp [hm, Ne.symm h]

theorem nodup_keys_setField (o : SettingsObj) (k : String) (v : SettVal)
    (h : (o.map Prod.fst).Nodup) : ((setField o k v).map Prod.fst).Nodup := by
  rw [keys_setField]
  by_cases hm : k ∈ o.map Prod.fst
  · simpa [hm]
  · simp only [hm, if_false]
    exact List.Nodup.append h (List.nodup_singleton k) (by simpa using hm)

theorem getField_objAssign_of_none (src : SettingsObj) :
    ∀ (t : SettingsObj) (k : String), getField src k = none →
      getField (objAssign t src) k = getField t k := by
  induction src with
  | nil => intro t k _; rfl
  | cons kv rest ih =>
    intro t k h
    obtain ⟨k', v'⟩ := kv
    by_cases hk : k' = k
    · simp [getField, hk] at h
    · simp only [getField, if_neg hk] at h
      show getField (objAssign (setField t k' v') rest) k = getField t k
      rw [ih _ _ h, getField_setField_ne _ _ _ _ hk]

theorem getField_objAssign_of_some (src : SettingsObj) :
    ∀ (t : SettingsObj) (k : String) (v : SettVal), (src.map Prod.fst).Nodup →
      getField src k = some v → getField (objAssign t src) k = some v := by
  induction src with
  | nil => intro t k v _ h; simp [getField] at h
  | cons kv rest ih =>
    intro t k v hnd h
    obtain ⟨k', v'⟩ := kv
    simp only [List.map_cons, List.nodup_cons] at hnd
    by_cases hk : k' = k
    · simp only [getField, if_pos hk] at h
      cases h
      subst hk
      show getField (objAssign (setField t k' v) rest) k' = some v
      rw [getField_objAssign_of_none _ _ _ (getField_eq_none _ _ hnd.1),
        getField_setField_self]
    · simp only [getField, if_neg hk] at h
      exact ih _ _ _ hnd.2 h

/-! ## Branch lemmas for `Request.send` -/

/-- If the merged settings carry method `GET` or `HEAD`, `send` takes the
query-string branch: data is appended to the URL and the settings object
passed to `fetch` is the merged object, untouched. -/
theorem send_query_branch (url : String) (data : List (String × JVal)) (s : SettingsObj)
    (h : getField (objAssign Request.defaultSettings s) "method" = some (SettVal.str "GET") ∨
      getField (objAssign Request.defaultSettings s) "method" = some (SettVal.str "HEAD")) :
    Request.send url data s =
      { url := url ++ "?" ++ queryString (formatDataPieces data),
        settings := objAssign Request.defaultSettings s } := by
  rcases h with h | h <;> simp only [Request.send] <;> rw [h] <;> rfl

/-- If the merged settings carry any method other than the exact strings
`GET` and `HEAD`, `send` takes the multipart-body branch: the URL is left
alone and the flattened pairs are attached verbatim as `body`. -/
theorem send_body_branch (url : String) (data : List (String × JVal)) (s : SettingsObj)
    (m : String)
    (h : getField (objAssign Request.defaultSettings s) "method" = some (SettVal.str m))
    (hG : m ≠ "GET") (hH : m ≠ "HEAD") :
    Request.send url data s =
      { url := url,
        settings := setField (objAssign Request.defaultSettings s) "body"
          (SettVal.form (formatDataPieces data)) } := by
  simp only [Request.send]
  rw [h]
  split
  · next heq => simp at heq; simp [heq] at hG
  · next heq => simp at heq; simp [heq] at hH
  · rfl

/-! ## Lemmas about the flattener -/

/-- The array loop, described by `List.enumFrom`. -/
theorem formatArr_eq (key : String) : ∀ (i : Nat) (elems : List JVal),
    formatArr key i elems =
      ((elems.enumFrom i).map (fun ie =>
        if getValType ie.2 = "Array" ∨ getValType ie.2 = "Object" then
          formatKeyVal (key ++ "[" ++ natStr ie.1 ++ "]") ie.2
        else
          formatKeyVal (key ++ "[]") ie.2)).flatten := by
  intro i elems
  induction elems generalizing i with
  | nil => rfl
  | cons v rest ih => simp [formatArr, List.enumFrom, ih]

theorem getValType_filterOmit (v : JVal) : getValType (filterOmit v) = getValType v := by
  cases v <;> rfl

mutual

/-- Erasing omit-worthy mapping fields anywhere in a value leaves its
flattening unchanged. -/
theorem formatKeyVal_filterOmit (key : String) (v : JVal) :
    formatKeyVal key (filterOmit v) = formatKeyVal key v := by
  cases v with
  | arr elems =>
    show formatArr key 0 (filterOmitArr elems) = formatArr key 0 elems
    exact formatArr_filterOmit key 0 elems
  | obj fields =>
    show formatObj key (filterOmitObj fields) = formatObj key fields
    exact formatObj_filterOmit key fields
  | _ => rfl

theorem formatArr_filterOmit (key : String) (i : Nat) (elems : List JVal) :
    formatArr key i (filterOmitArr elems) = formatArr key i elems := by
  cases elems with
  | nil => rfl
  | cons v rest =>
    show (if getValType (filterOmit v) = "Array" ∨ getValType (filterOmit v) = "Object" then
        formatKeyVal (key ++ "[" ++ natStr i ++ "]") (filterOmit v)
      else formatKeyVal (key ++ "[]") (filterOmit v)) ++ formatArr key (i + 1) (filterOmitArr rest) =
      (if getValType v = "Array" ∨ getValType v = "Object" then
        formatKeyVal (key ++ "[" ++ natStr i ++ "]") v
      else formatKeyVal (key ++ "[]") v) ++ formatArr key (i + 1) rest
    rw [getValType_filterOmit, formatKeyVal_filterOmit, formatKeyVal_filterOmit,
      formatArr_filterOmit key (i + 1) rest]

theorem formatObj_filterOmit (key : String) (fields : List (String × JVal)) :
    formatObj key (filterOmitObj fields) = formatObj key fields := by
  cases fields with
  | nil => rfl
  | cons kv rest =>
    obtain ⟨k, v⟩ := kv
    show formatObj key (if isOmitB v then filterOmitObj rest
        else (k, filterOmit v) :: filterOmitObj rest) =
      formatKeyVal (key ++ "[" ++ k ++ "]") v ++ formatObj key rest
    by_cases h : isOmitB v = true
    · rw [if_pos h, formatObj_filterOmit key rest]
      cases v <;> simp_all [isOmitB, getValType, formatKeyVal]
    · rw [if_neg h]
      show formatKeyVal (key ++ "[" ++ k ++ "]") (filterOmit v) ++
          formatObj key (filterOmitObj rest) =
        formatKeyVal (key ++ "[" ++ k ++ "]") v ++ formatObj key rest
      rw [formatKeyVal_filterOmit, formatObj_filterOmit key rest]

end

/-! ## Claim theorems -/

/-- C1 (counterexample): the dispatcher's branch is NOT chosen by a
case-insensitive comparison.  The method string `"get"` is
case-insensitively equal to `GET`, yet `send` leaves the URL alone and
attaches a multipart body — the behaviour the claim reserves for methods
not case-insensitively equal to GET/HEAD — while the exact string
`"GET"` does take the query-string branch on the same input. -/
theorem C1_cex :
    (Request.send "u" [("a", JVal.num 1)] [("method", SettVal.str "get")]).url = "u" ∧
    getField (Request.send "u" [("a", JVal.num 1)]
        [("method", SettVal.str "get")]).settings "body" =
      some (SettVal.form [("a", JVal.num 1)]) ∧
    (Request.send "u" [("a", JVal.num 1)] [("method", SettVal.str "GET")]).url = "u?a=1" :=
  ⟨rfl, rfl, rfl⟩

/-- C1 (amended): the branch chosen by `send` depends only on the
effective method string compared case-SENSITIVELY against `GET` and
`HEAD`: those two exact strings take the query-string branch, every
other method string takes the multipart-body branch. -/
theorem C1_thm (url : String) (data : List (String × JVal)) (s : SettingsObj) (m : String)
    (h : getField (objAssign Request.defaultSettings s) "method" = some (SettVal.str m)) :
    (m = "GET" ∨ m = "HEAD" →
      Request.send url data s =
        { url := url ++ "?" ++ queryString (formatDataPieces data),
          settings := objAssign Request.defaultSettings s }) ∧
    (m ≠ "GET" → m ≠ "HEAD" →
      Request.send url data s =
        { url := url,
          settings := setField (objAssign Request.defaultSettings s) "body"
            (SettVal.form (formatDataPieces data)) }) := by
  constructor
  · intro hm
    apply send_query_branch
    rcases hm with hm | hm
    · exact Or.inl (hm ▸ h)
    · exact Or.inr (hm ▸ h)
  · intro hG hH
    exact send_body_branch url data s m h hG hH

/-- C1 (witness): the amended theorem applied at method `"put"`. -/
theorem C1_wit :
    getField (objAssign Request.defaultSettings [("method", SettVal.str "put")]) "method" =
      some (SettVal.str "put") ∧
    Request.send "u" [("a", JVal.num 1)] [("method", SettVal.str "put")] =
      { url := "u",
        settings := setField (objAssign Request.defaultSettings [("method", SettVal.str "put")])
          "body" (SettVal.form [("a", JVal.num 1)]) } :=
  ⟨rfl, (C1_thm "u" [("a", JVal.num 1)] [("method", SettVal.str "put")] "put" rfl).2
    (by decide) (by decide)⟩

/-- C2: inside an array, a composite element (array or mapping) at index
`i` is visited under the index-qualified key `key[i]`, any other element
under the empty-bracket key `key[]`; and the two concrete flattenings of
the claim come out exactly as stated, in order. -/
theorem C2_thm :
    (∀ (key : String) (elems : List JVal),
      formatKeyVal key (JVal.arr elems) =
        ((elems.enum).map (fun ie =>
          if getValType ie.2 = "Array" ∨ getValType ie.2 = "Object" then
            formatKeyVal (key ++ "[" ++ natStr ie.1 ++ "]") ie.2
          else
            formatKeyVal (key ++ "[]") ie.2)).flatten) ∧
    formatDataPieces [("values", JVal.arr [JVal.obj [("a", JVal.str "a"), ("b", JVal.str "b")]])] =
      [("values[0][a]", JVal.str "a"), ("values[0][b]", JVal.str "b")] ∧
    formatDataPieces [("tags", JVal.arr [JVal.str "x", JVal.str "y"])] =
      [("tags[]", JVal.str "x"), ("tags[]", JVal.str "y")] :=
  ⟨fun key elems => formatArr_eq key 0 elems, rfl, rfl⟩

/-- C3: with the mandated default method GET (no caller-supplied method)
or any merged method GET/HEAD, `send` percent-encodes each flattened
value but not its key, joins the pairs as `key=value` with `&`, and
appends the result to the URL after a literal `?`; for
`data = {q: 'hello world'}` the URL ends in `?q=hello%20world`. -/
theorem C3_thm :
    (∀ (url : String) (data : List (String × JVal)) (s : SettingsObj),
      getField (objAssign Request.defaultSettings s) "method" = some (SettVal.str "GET") ∨
        getField (objAssign Request.defaultSettings s) "method" = some (SettVal.str "HEAD") →
      (Request.send url data s).url =
        url ++ "?" ++ String.intercalate "&"
          ((formatDataPieces data).map
            (fun kv => kv.1 ++ "=" ++ encodeURIComponent (jsToString kv.2)))) ∧
    getField (objAssign Request.defaultSettings []) "method" = some (SettVal.str "GET") ∧
    (Request.send "u" [("q", JVal.str "hello world")] []).url = "u?q=hello%20world" := by
  refine ⟨fun url data s h => ?_, rfl, rfl⟩
  rw [send_query_branch url data s h]
  rfl

/-- C3 (witness): the query-string clause applied with the default
settings (hence method GET). -/
theorem C3_wit :
    (getField (objAssign Request.defaultSettings []) "method" = some (SettVal.str "GET") ∨
      getField (objAssign Request.defaultSettings []) "method" = some (SettVal.str "HEAD")) ∧
    (Request.send "u" [("q", JVal.str "hello world")] []).url = "u?q=hello%20world" :=
  ⟨Or.inl rfl, C3_thm.1 "u" [("q", JVal.str "hello world")] [] (Or.inl rfl)⟩

/-- C4: for every merged method other than the exact strings GET/HEAD,
`send` leaves the URL alone and attaches exactly the flattened pairs of
the data, in order and verbatim (no percent-encoding), as the body. -/
theorem C4_thm (url : String) (data : List (String × JVal)) (s : SettingsObj) (m : String)
    (h : getField (objAssign Request.defaultSettings s) "method" = some (SettVal.str m))
    (hG : m ≠ "GET") (hH : m ≠ "HEAD") :
    getField (Request.send url data s).settings "body" =
      some (SettVal.form (formatDataPieces data)) ∧
    (Request.send url data s).url = url := by
  rw [send_body_branch url data s m h hG hH]
  exact ⟨getField_setField_self _ _ _, rfl⟩

/-- C4 (witness): applied at method POST with nested data. -/
theorem C4_wit :
    getField (objAssign Request.defaultSettings [("method", SettVal.str "POST")]) "method" =
      some (SettVal.str "POST") ∧
    getField (Request.send "u" [("tags", JVal.arr [JVal.str "x", JVal.str "y"])]
        [("method", SettVal.str "POST")]).settings "body" =
      some (SettVal.form [("tags[]", JVal.str "x"), ("tags[]", JVal.str "y")]) :=
  ⟨rfl,
    (C4_thm "u" [("tags", JVal.arr [JVal.str "x", JVal.str "y"])]
      [("method", SettVal.str "POST")] "POST" rfl (by decide) (by decide)).1⟩

/-- C5: `Request.get` always issues a GET-shaped request (query-string
URL, merged method GET) and `Request.post` always a POST-shaped one
(method POST, flattened pairs as body), whatever method the caller's
settings carry; in particular `get` with `settings = {method: 'POST'}`
still query-encodes. -/
theorem C5_thm (url : String) (data : List (String × JVal)) (s : SettingsObj)
    (hs : (s.map Prod.fst).Nodup) :
    (Request.get url data s).url = url ++ "?" ++ queryString (formatDataPieces data) ∧
    getField (Request.get url data s).settings "method" = some (SettVal.str "GET") ∧
    (Request.post url data s).url = url ∧
    getField (Request.post url data s).settings "method" = some (SettVal.str "POST") ∧
    getField (Request.post url data s).settings "body" =
      some (SettVal.form (formatDataPieces data)) := by
  have hsG : ((setField s "method" (SettVal.str "GET")).map Prod.fst).Nodup :=
    nodup_keys_setField s _ _ hs
  have hsP : ((setField s "method" (SettVal.str "POST")).map Prod.fst).Nodup :=
    nodup_keys_setField s _ _ hs
  have hmG : getField (objAssign Request.defaultSettings
      (setField s "method" (SettVal.str "GET"))) "method" = some (SettVal.str "GET") :=
    getField_objAssign_of_some _ _ _ _ hsG (getField_setField_self s _ _)
  have hmP : getField (objAssign Request.defaultSettings
      (setField s "method" (SettVal.str "POST"))) "method" = some (SettVal.str "POST") :=
    getField_objAssign_of_some _ _ _ _ hsP (getField_setField_self s _ _)
  have hget : Request.get url data s =
      Request.send url data (setField s "method" (SettVal.str "GET")) := rfl
  have hpost : Request.post url data s =
      Request.send url data (setField s "method" (SettVal.str "POST")) := rfl
  rw [hget, hpost, send_query_branch url data _ (Or.inl hmG),
    send_body_branch url data _ "POST" hmP (by decide) (by decide)]
  refine ⟨rfl, hmG, rfl, ?_, getField_setField_self _ _ _⟩
  rw [getField_setField_ne _ _ _ _ (by decide)]
  exact hmP

/-- C5 (witness): applied with caller settings `{method: 'POST'}` for the
GET entry point. -/
theorem C5_wit :
    (([("method", SettVal.str "POST")].map (Prod.fst (α := String) (β := SettVal))).Nodup) ∧
    (Request.get "u" [("a", JVal.num 1)] [("method", SettVal.str "POST")]).url = "u?a=1" :=
  ⟨by decide,
    (C5_thm "u" [("a", JVal.num 1)] [("method", SettVal.str "POST")] (by decide)).1⟩

/-- C6: empty data raises nothing: `flatten({})` is the empty sequence,
every request whose merged method is GET or HEAD and whose data flattens
to zero pairs succeeds and produces `url ++ "?"` with nothing after the
bare `?`, and in particular so does the default (GET) request with empty
data. -/
theorem C6_thm :
    formatDataPieces [] = [] ∧
    (∀ (url : String) (data : List (String × JVal)) (s : SettingsObj),
      (getField (objAssign Request.defaultSettings s) "method" = some (SettVal.str "GET") ∨
        getField (objAssign Request.defaultSettings s) "method" = some (SettVal.str "HEAD")) →
      formatDataPieces data = [] →
      (Request.send url data s).url = url ++ "?") ∧
    (∀ url : String, (Request.send url [] []).url = url ++ "?") := by
  have hq : ∀ (url : String) (data : List (String × JVal)) (s : SettingsObj),
      (getField (objAssign Request.defaultSettings s) "method" = some (SettVal.str "GET") ∨
        getField (objAssign Request.defaultSettings s) "method" = some (SettVal.str "HEAD")) →
      formatDataPieces data = [] →
      (Request.send url data s).url = url ++ "?" := by
    intro url data s h hflat
    rw [send_query_branch url data s h]
    show url ++ "?" ++ queryString (formatDataPieces data) = url ++ "?"
    rw [hflat, show queryString [] = "" from rfl, String.append_empty]
  exact ⟨rfl, hq, fun url => hq url [] [] (Or.inl rfl) rfl⟩

/-- C6 (witness): a HEAD request whose data `{a: undefined}` flattens to
zero pairs still produces the bare-`?` URL. -/
theorem C6_wit :
    (getField (objAssign Request.defaultSettings [("method", SettVal.str "HEAD")]) "method" =
        some (SettVal.str "GET") ∨
      getField (objAssign Request.defaultSettings [("method", SettVal.str "HEAD")]) "method" =
        some (SettVal.str "HEAD")) ∧
    formatDataPieces [("a", JVal.undef)] = [] ∧
    (Request.send "u" [("a", JVal.undef)] [("method", SettVal.str "HEAD")]).url = "u" ++ "?" :=
  ⟨Or.inr rfl, rfl,
    C6_thm.2.1 "u" [("a", JVal.undef)] [("method", SettVal.str "HEAD")] (Or.inr rfl) rfl⟩

/-- C7: omit-worthy values (`undefined`, functions, symbols) produce no
pair at any level; erasing them from every mapping leaves the flattening
— and hence the relative order of the surviving pairs — unchanged; and
`flatten({a: undefined, b: 1})` is exactly `[['b', 1]]`. -/
theorem C7_thm :
    (∀ key : String, formatKeyVal key JVal.undef = [] ∧ formatKeyVal key JVal.func = [] ∧
      formatKeyVal key JVal.symbol = []) ∧
    (∀ (key : String) (v : JVal), formatKeyVal key (filterOmit v) = formatKeyVal key v) ∧
    formatDataPieces [("a", JVal.undef), ("b", JVal.num 1)] = [("b", JVal.num 1)] :=
  ⟨fun _ => ⟨rfl, rfl, rfl⟩, formatKeyVal_filterOmit, rfl⟩

/-- C8: `null` is a terminal primitive: it is emitted as a pair carrying
the un-stringified null value, and `flatten({n: null})` is exactly
`[['n', null]]`. -/
theorem C8_thm :
    (∀ key : String, formatKeyVal key JVal.null = [(key, JVal.null)]) ∧
    formatDataPieces [("n", JVal.null)] = [("n", JVal.null)] :=
  ⟨fun _ => rfl, rfl⟩

/-! ## Store lemmas and C10 -/

theorem storeGet_append (σ : Store) (o : SettingsObj) (r : Ref) (h : r < σ.length) :
    storeGet (σ ++ [o]) r = storeGet σ r := by
  simp [storeGet, List.get?_eq_getElem?, List.getElem?_append_left h]

theorem storeGet_storeSet_ne (σ : Store) (i : Ref) (o : SettingsObj) (r : Ref) (h : r ≠ i) :
    storeGet (storeSet σ i o) r = storeGet σ r := by
  simp [storeGet, storeSet, List.get?_eq_getElem?, List.getElem?_set_ne (Ne.symm h)]

theorem storeGet_storeSet_self (σ : Store) (i : Ref) (o : SettingsObj) (h : i < σ.length) :
    storeGet (storeSet σ i o) i = o := by
  simp [storeGet, storeSet, List.get?_eq_getElem?, List.getElem?_set_eq_of_lt _ h]

/-- `Request.send` never writes to the caller's settings object: its
`Object.assign` target is the freshly allocated `defaultSettings`
literal, and the `body` write also lands there. -/
theorem sendS_frame (url : String) (data : List (String × JVal)) (r : Ref) (σ : Store)
    (h : r < σ.length) :
    storeGet (Request.sendS url data r σ).2 r = storeGet σ r := by
  have hr : r ≠ σ.length := Nat.ne_of_lt h
  simp only [Request.sendS]
  split
  · rw [storeGet_storeSet_ne _ _ _ _ hr, storeGet_append _ _ _ h]
  · rw [storeGet_storeSet_ne _ _ _ _ hr, storeGet_append _ _ _ h]
  · rw [storeGet_storeSet_ne _ _ _ _ hr, storeGet_storeSet_ne _ _ _ _ hr,
      storeGet_append _ _ _ h]

/-- C10: `Request.get`/`Request.post` mutate the caller's settings object
(it is the target of their `Object.assign`), so after the call the
caller's own object carries `method = 'GET'` (resp. `'POST'`);`
`Request.send` itself merges into a fresh defaults object and leaves the
caller's object untouched — in particular the `body` write never reaches
it. -/
theorem C10_thm (url : String) (data : List (String × JVal)) (r : Ref) (σ : Store)
    (h : r < σ.length) :
    storeGet (Request.getS url data r σ).2 r =
      objAssign (storeGet σ r) [("method", SettVal.str "GET")] ∧
    getField (storeGet (Request.getS url data r σ).2 r) "method" = some (SettVal.str "GET") ∧
    storeGet (Request.postS url data r σ).2 r =
      objAssign (storeGet σ r) [("method", SettVal.str "POST")] ∧
    getField (storeGet (Request.postS url data r σ).2 r) "method" = some (SettVal.str "POST") ∧
    storeGet (Request.sendS url data r σ).2 r = storeGet σ r := by
  have hlG : r < (storeSet σ r
      (objAssign (storeGet σ r) [("method", SettVal.str "GET")])).length := by
    simpa [storeSet] using h
  have hlP : r < (storeSet σ r
      (objAssign (storeGet σ r) [("method", SettVal.str "POST")])).length := by
    simpa [storeSet] using h
  have hG : storeGet (Request.getS url data r σ).2 r =
      objAssign (storeGet σ r) [("method", SettVal.str "GET")] := by
    show storeGet (Request.sendS url data r _).2 r = _
    rw [sendS_frame _ _ _ _ hlG, storeGet_storeSet_self σ r _ h]
  have hP : storeGet (Request.postS url data r σ).2 r =
      objAssign (storeGet σ r) [("method", SettVal.str "POST")] := by
    show storeGet (Request.sendS url data r _).2 r = _
    rw [sendS_frame _ _ _ _ hlP, storeGet_storeSet_self σ r _ h]
  refine ⟨hG, ?_, hP, ?_, sendS_frame url data r σ h⟩
  · rw [hG]; exact getField_setField_self _ _ _
  · rw [hP]; exact getField_setField_self _ _ _

/-- C10 (witness): a one-object store whose object initially carries
`method = 'POST'`; after `Request.getS` it carries `method = 'GET'`,
and `Request.sendS` leaves it as it was. -/
theorem C10_wit :
    (0 : Nat) < ([[("method", SettVal.str "POST")]] : Store).length ∧
    getField (storeGet (Request.getS "u" [] 0 [[("method", SettVal.str "POST")]]).2 0)
      "method" = some (SettVal.str "GET") ∧
    storeGet (Request.sendS "u" [] 0 [[("method", SettVal.str "POST")]]).2 0 =
      [("method", SettVal.str "POST")] :=
  ⟨by decide,
    (C10_thm "u" [] 0 [[("method", SettVal.str "POST")]] (by decide)).2.1,
    (C10_thm "u" [] 0 [[("method", SettVal.str "POST")]] (by decide)).2.2.2.2⟩

/-! ## Decimal rendering lemmas -/

theorem natCharsAux_fuel : ∀ (f f' n : Nat), n < f → n < f' → natCharsAux f n = natCharsAux f' n := by
  intro f
  induction f with
  | zero => intro f' n h _; omega
  | succ g ih =>
    intro f' n hf hf'
    cases f' with
    | zero => omega
    | succ g' =>
      show natCharsAux (g + 1) n = natCharsAux (g' + 1) n
      by_cases h10 : n < 10
      · simp [natCharsAux, h10]
      · have hdiv : n / 10 < n := Nat.div_lt_self (by omega) (by omega)
        simp only [natCharsAux, if_neg h10]
        rw [ih g' (n / 10) (by omega) (by omega)]

theorem natCharsAux_ne_nil (f n : Nat) (h : 0 < f) : natCharsAux f n ≠ [] := by
  cases f with
  | zero => omega
  | succ g => by_cases h10 : n < 10 <;> simp [natCharsAux, h10]

theorem digitChar_ne_bracket : ∀ n < 10, digitChar n ≠ '[' ∧ digitChar n ≠ ']' := by decide

theorem digitChar_inj : ∀ a < 10, ∀ b < 10, digitChar a = digitChar b → a = b := by decide

theorem natCharsAux_mem_digit :
    ∀ (f n : Nat) (c : Char), c ∈ natCharsAux f n → ∃ d, d < 10 ∧ c = digitChar d := by
  intro f
  induction f with
  | zero => intro n c h; simp [natCharsAux] at h
  | succ g ih =>
    intro n c h
    by_cases h10 : n < 10
    · simp only [natCharsAux, if_pos h10, List.mem_singleton] at h
      exact ⟨n, h10, h⟩
    · simp only [natCharsAux, if_neg h10] at h
      rcases List.mem_append.mp h with h | h
      · exact ih _ _ h
      · simp only [List.mem_singleton] at h
        exact ⟨n % 10, Nat.mod_lt _ (by omega), h⟩

theorem not_mem_natStr_data (n : Nat) (c : Char) (h : c ∈ (natStr n).data) :
    c ≠ '[' ∧ c ≠ ']' := by
  obtain ⟨d, hd, rfl⟩ := natCharsAux_mem_digit _ _ _ h
  exact digitChar_ne_bracket d hd

theorem bracketFreeB_natStr (n : Nat) : bracketFreeB (natStr n) = true := by
  have h1 : '[' ∉ (natStr n).data := fun h => (not_mem_natStr_data n _ h).1 rfl
  have h2 : ']' ∉ (natStr n).data := fun h => (not_mem_natStr_data n _ h).2 rfl
  simp [bracketFreeB, h1, h2]

theorem natStr_inj : ∀ (a b : Nat), natStr a = natStr b → a = b := by
  intro a
  induction a using Nat.strong_induction_on with
  | _ a ih =>
    intro b h
    have h' : natCharsAux (a + 1) a = natCharsAux (b + 1) b := congrArg String.data h
    by_cases ha : a < 10 <;> by_cases hb : b < 10
    · simp only [natCharsAux, if_pos ha, if_pos hb, List.cons.injEq, and_true] at h'
      exact digitChar_inj a ha b hb h'
    · exfalso
      simp only [natCharsAux, if_pos ha, if_neg hb] at h'
      have hlen := congrArg List.length h'
      simp only [List.length_singleton, List.length_append] at hlen
      have hne := natCharsAux_ne_nil b (b / 10) (by omega)
      have h0 : (natCharsAux b (b / 10)).length ≠ 0 :=
        fun h0 => hne (List.length_eq_zero.mp h0)
      omega
    · exfalso
      simp only [natCharsAux, if_neg ha, if_pos hb] at h'
      have hlen := congrArg List.length h'
      simp only [List.length_singleton, List.length_append] at hlen
      have hne := natCharsAux_ne_nil a (a / 10) (by omega)
      have h0 : (natCharsAux a (a / 10)).length ≠ 0 :=
        fun h0 => hne (List.length_eq_zero.mp h0)
      omega
    · simp only [natCharsAux, if_neg ha, if_neg hb] at h'
      obtain ⟨hinit, hlast⟩ := List.append_inj' h' rfl
      simp only [List.cons.injEq, and_true] at hlast
      have hmod : a % 10 = b % 10 :=
        digitChar_inj _ (Nat.mod_lt _ (by omega)) _ (Nat.mod_lt _ (by omega)) hlast
      have hdivA : a / 10 < a := Nat.div_lt_self (by omega) (by omega)
      have hdivB : b / 10 < b := Nat.div_lt_self (by omega) (by omega)
      rw [natCharsAux_fuel a (a / 10 + 1) (a / 10) (by omega) (by omega),
        natCharsAux_fuel b (b / 10 + 1) (b / 10) (by omega) (by omega)] at hinit
      have hdiv : a / 10 = b / 10 := ih (a / 10) hdivA (b / 10) (congrArg String.mk hinit)
      have ha10 := Nat.div_add_mod a 10
      have hb10 := Nat.div_add_mod b 10
      omega

/-! ## Key parsing round trip -/

theorem string_mk_data (s : String) : String.mk s.data = s := rfl

theorem bracketFree_mem (s : String) (h : bracketFreeB s = true) :
    '[' ∉ s.data ∧ ']' ∉ s.data := by
  simpa [bracketFreeB] using h

theorem splitOnLBrack_ne_nil : ∀ cs : List Char, splitOnLBrack cs ≠ [] := by
  intro cs
  cases cs with
  | nil => simp [splitOnLBrack]
  | cons c cs =>
    simp only [splitOnLBrack]
    split
    · simp
    · split <;> simp

theorem splitOnLBrack_no_bracket : ∀ cs : List Char, '[' ∉ cs → splitOnLBrack cs = [cs] := by
  intro cs
  induction cs with
  | nil => intro _; rfl
  | cons c cs ih =>
    intro h
    simp only [List.mem_cons, not_or] at h
    simp only [splitOnLBrack, ih h.2]
    rw [if_neg (Ne.symm h.1)]

theorem splitOnLBrack_append : ∀ (xs ys : List Char), '[' ∉ xs →
    splitOnLBrack (xs ++ '[' :: ys) = xs :: splitOnLBrack ys := by
  intro xs
  induction xs with
  | nil =>
    intro ys _
    obtain ⟨g, gs, hg⟩ : ∃ g gs, splitOnLBrack ys = g :: gs := by
      rcases hsp : splitOnLBrack ys with _ | ⟨g, gs⟩
      · exact absurd hsp (splitOnLBrack_ne_nil ys)
      · exact ⟨g, gs, rfl⟩
    simp only [List.nil_append, splitOnLBrack, hg]
    simp
  | cons x xs ih =>
    intro ys h
    simp only [List.mem_cons, not_or] at h
    rw [List.cons_append,
      show splitOnLBrack (x :: (xs ++ '[' :: ys)) =
        (match splitOnLBrack (xs ++ '[' :: ys) with
          | [] => [[]]
          | g :: gs => if x = '[' then [] :: g :: gs else (x :: g) :: gs) from rfl,
      ih ys h.2]
    simp [Ne.symm h.1]

theorem renderTail_cons (s : String) (rest : List String) :
    renderTail (s :: rest) = "[" ++ s ++ "]" ++ renderTail rest := rfl

theorem renderTail_data : ∀ segs : List String,
    (renderTail segs).data = (segs.map (fun s => '[' :: (s.data ++ [']']))).flatten := by
  intro segs
  induction segs with
  | nil => rfl
  | cons s rest ih => simp [renderTail_cons, String.data_append, ih, List.append_assoc]

theorem splitOnLBrack_render : ∀ (segs : List String) (g : List Char), '[' ∉ g →
    (∀ s ∈ segs, '[' ∉ s.data) →
    splitOnLBrack (g ++ (segs.map (fun s => '[' :: (s.data ++ [']']))).flatten) =
      g :: segs.map (fun s => s.data ++ [']']) := by
  intro segs
  induction segs with
  | nil =>
    intro g hg _
    simp [splitOnLBrack_no_bracket g hg]
  | cons s rest ih =>
    intro g hg hsegs
    have hs : '[' ∉ s.data := hsegs s (List.mem_cons_self s rest)
    have hrest : ∀ t ∈ rest, '[' ∉ t.data := fun t ht => hsegs t (List.mem_cons_of_mem s ht)
    have hsplit : g ++ ((s :: rest).map (fun u => '[' :: (u.data ++ [']']))).flatten =
        g ++ '[' :: ((s.data ++ [']']) ++ (rest.map (fun u => '[' :: (u.data ++ [']']))).flatten) := by
      simp [List.append_assoc]
    rw [hsplit, splitOnLBrack_append g _ hg,
      ih (s.data ++ [']']) (by simp [hs]) hrest]
    simp

theorem parseKey_render (k : String) (segs : List String) (hk : bracketFreeB k = true)
    (hsegs : ∀ s ∈ segs, bracketFreeB s = true) :
    parseKey (renderPath (k :: segs)) = (k, segs) := by
  obtain ⟨hk1, hk2⟩ := bracketFree_mem k hk
  have hdata : (renderPath (k :: segs)).data =
      k.data ++ (segs.map (fun s => '[' :: (s.data ++ [']']))).flatten := by
    show (k ++ renderTail segs).data = _
    rw [String.data_append, renderTail_data]
  have hcond : (!(k.data.contains ']') &&
      (segs.map (fun s => s.data ++ [']'])).all segOk) = true := by
    simp only [Bool.and_eq_true, Bool.not_eq_true', List.all_eq_true]
    constructor
    · simpa using hk2
    · intro g hg
      obtain ⟨s, hsmem, rfl⟩ := List.mem_map.mp hg
      have := (bracketFree_mem s (hsegs s hsmem)).2
      simp [segOk, this]
  simp only [parseKey, hdata,
    splitOnLBrack_render segs k.data hk1 (fun s hs => (bracketFree_mem s (hsegs s hs)).1)]
  rw [if_pos hcond]
  simp only [Prod.mk.injEq, List.map_map, string_mk_data]
  refine ⟨trivial, ?_⟩
  have hmap : ∀ s ∈ segs,
      ((fun g : List Char => String.mk g.dropLast) ∘ fun s : String => s.data ++ [']']) s =
        id s := by
    intro s _
    simp [Function.comp, List.dropLast_concat, string_mk_data]
  rw [List.map_congr_left hmap, List.map_id]

/-! ## The flattener factors through paths -/

theorem piecesArr_cons (i : Nat) (v : JVal) (rest : List JVal) :
    piecesArr i (v :: rest) =
      (if isCompositeB v then (piecesP v).map (fun pv => (natStr i :: pv.1, pv.2))
       else (piecesP v).map (fun pv => ("" :: pv.1, pv.2))) ++ piecesArr (i + 1) rest := rfl

theorem piecesObj_cons (k : String) (v : JVal) (rest : List (String × JVal)) :
    piecesObj ((k, v) :: rest) =
      (piecesP v).map (fun pv => (k :: pv.1, pv.2)) ++ piecesObj rest := rfl

theorem key_render_cons (key s : String) (p : List String) :
    (key ++ "[" ++ s ++ "]") ++ renderTail p = key ++ renderTail (s :: p) := by
  apply String.ext
  simp [renderTail_cons, String.data_append, List.append_assoc]

theorem key_render_empty_seg (key : String) (p : List String) :
    (key ++ "[]") ++ renderTail p = key ++ renderTail ("" :: p) := by
  apply String.ext
  simp [renderTail_cons, String.data_append, List.append_assoc,
    show "[]".data = ['[', ']'] from rfl, show "".data = ([] : List Char) from rfl]

theorem isCompositeB_iff (v : JVal) :
    isCompositeB v = true ↔ (getValType v = "Array" ∨ getValType v = "Object") := by
  simp [isCompositeB]

mutual

/-- `formatKeyVal` emits exactly the paths of `piecesP`, rendered. -/
theorem formatKeyVal_pieces (key : String) (v : JVal) :
    formatKeyVal key v = (piecesP v).map (fun pv => (key ++ renderTail pv.1, pv.2)) := by
  cases v with
  | arr elems =>
    show formatArr key 0 elems = (piecesArr 0 elems).map _
    exact formatArr_pieces key 0 elems
  | obj fields =>
    show formatObj key fields = (piecesObj fields).map _
    exact formatObj_pieces key fields
  | undef => rfl
  | func => rfl
  | symbol => rfl
  | str s => show [(key, JVal.str s)] = [(key ++ renderTail [], JVal.str s)]; rw [show renderTail [] = "" from rfl, String.append_empty]
  | num n => show [(key, JVal.num n)] = [(key ++ renderTail [], JVal.num n)]; rw [show renderTail [] = "" from rfl, String.append_empty]
  | bool b => show [(key, JVal.bool b)] = [(key ++ renderTail [], JVal.bool b)]; rw [show renderTail [] = "" from rfl, String.append_empty]
  | null => show [(key, JVal.null)] = [(key ++ renderTail [], JVal.null)]; rw [show renderTail [] = "" from rfl, String.append_empty]

theorem formatArr_pieces (key : String) (i : Nat) (elems : List JVal) :
    formatArr key i elems = (piecesArr i elems).map (fun pv => (key ++ renderTail pv.1, pv.2)) := by
  cases elems with
  | nil => rfl
  | cons v rest =>
    show (if getValType v = "Array" ∨ getValType v = "Object" then
        formatKeyVal (key ++ "[" ++ natStr i ++ "]") v
      else formatKeyVal (key ++ "[]") v) ++ formatArr key (i + 1) rest = _
    rw [piecesArr_cons, List.map_append, formatArr_pieces key (i + 1) rest]
    by_cases hc : getValType v = "Array" ∨ getValType v = "Object"
    · rw [if_pos hc, if_pos ((isCompositeB_iff v).mpr hc),
        formatKeyVal_pieces (key ++ "[" ++ natStr i ++ "]") v, List.map_map]
      refine congrArg (· ++ (piecesArr (i + 1) rest).map _) ?_
      refine List.map_congr_left fun pv _ => ?_
      show ((key ++ "[" ++ natStr i ++ "]") ++ renderTail pv.1, pv.2) =
        (key ++ renderTail (natStr i :: pv.1), pv.2)
      rw [key_render_cons]
    · rw [if_neg hc, if_neg (fun hb => hc ((isCompositeB_iff v).mp hb)),
        formatKeyVal_pieces (key ++ "[]") v, List.map_map]
      refine congrArg (· ++ (piecesArr (i + 1) rest).map _) ?_
      refine List.map_congr_left fun pv _ => ?_
      show ((key ++ "[]") ++ renderTail pv.1, pv.2) = (key ++ renderTail ("" :: pv.1), pv.2)
      rw [key_render_empty_seg]

theorem formatObj_pieces (key : String) (fields : List (String × JVal)) :
    formatObj key fields = (piecesObj fields).map (fun pv => (key ++ renderTail pv.1, pv.2)) := by
  cases fields with
  | nil => rfl
  | cons kv rest =>
    obtain ⟨k, v⟩ := kv
    show formatKeyVal (key ++ "[" ++ k ++ "]") v ++ formatObj key rest = _
    rw [piecesObj_cons, List.map_append, formatObj_pieces key rest,
      formatKeyVal_pieces (key ++ "[" ++ k ++ "]") v, List.map_map]
    refine congrArg (· ++ (piecesObj rest).map _) ?_
    refine List.map_congr_left fun pv _ => ?_
    show ((key ++ "[" ++ k ++ "]") ++ renderTail pv.1, pv.2) =
      (key ++ renderTail (k :: pv.1), pv.2)
    rw [key_render_cons]

end

/-- The flattener, top level: exactly the paths of the data, rendered. -/
theorem formatDataPieces_pieces (data : List (String × JVal)) :
    formatDataPieces data = (piecesObj data).map (fun pv => (renderPath pv.1, pv.2)) := by
  induction data with
  | nil => rfl
  | cons kv rest ih =>
    obtain ⟨k, v⟩ := kv
    show formatKeyVal k v ++ formatDataPieces rest = _
    rw [piecesObj_cons, List.map_append, ih, formatKeyVal_pieces k v, List.map_map]
    rfl

/-! ## Paths of good values -/

theorem isOmitB_pieces (v : JVal) (h : isOmitB v = true) : piecesP v = [] := by
  cases v <;> first | rfl | simp [isOmitB, getValType] at h

theorem piecesObj_ne_nil_path (fields : List (String × JVal)) :
    ∀ pv ∈ piecesObj fields, pv.1 ≠ [] := by
  induction fields with
  | nil => intro pv h; simp [piecesObj] at h
  | cons kv rest ih =>
    obtain ⟨k, v⟩ := kv
    intro pv h
    rw [piecesObj_cons] at h
    rcases List.mem_append.mp h with h | h
    · obtain ⟨qv, _, rfl⟩ := List.mem_map.mp h
      simp
    · exact ih pv h

mutual

theorem good_pieces_bracketFree (v : JVal) (h : good v = true) :
    ∀ pv ∈ piecesP v, ∀ s ∈ pv.1, bracketFreeB s = true := by
  cases v with
  | arr elems => exact goodArr_pieces_bracketFree elems h 0
  | obj fields => exact goodObj_pieces_bracketFree fields h
  | undef => intro pv hmem; simp [piecesP] at hmem
  | func => intro pv hmem; simp [piecesP] at hmem
  | symbol => intro pv hmem; simp [piecesP] at hmem
  | str s => intro pv hmem; simp only [piecesP, List.mem_singleton] at hmem; subst hmem; simp
  | num n => intro pv hmem; simp only [piecesP, List.mem_singleton] at hmem; subst hmem; simp
  | bool b => intro pv hmem; simp only [piecesP, List.mem_singleton] at hmem; subst hmem; simp
  | null => intro pv hmem; simp only [piecesP, List.mem_singleton] at hmem; subst hmem; simp

theorem goodArr_pieces_bracketFree (elems : List JVal) (h : goodArr elems = true) (i : Nat) :
    ∀ pv ∈ piecesArr i elems, ∀ s ∈ pv.1, bracketFreeB s = true := by
  cases elems with
  | nil => intro pv hmem; simp [piecesArr] at hmem
  | cons v rest =>
    simp only [goodArr, Bool.and_eq_true] at h
    obtain ⟨⟨hcomp, hgood⟩, hrest⟩ := h
    intro pv hmem
    rw [piecesArr_cons] at hmem
    rcases List.mem_append.mp hmem with hm | hm
    · by_cases hc : isCompositeB v = true
      · rw [if_pos hc] at hm
        obtain ⟨qv, hqv, rfl⟩ := List.mem_map.mp hm
        intro s hs
        rcases List.mem_cons.mp hs with rfl | hs
        · exact bracketFreeB_natStr i
        · exact good_pieces_bracketFree v hgood qv hqv s hs
      · rw [Bool.not_eq_true] at hc
        have homit : isOmitB v = true := by simpa [hc] using hcomp
        rw [if_neg (by simp [hc]), isOmitB_pieces v homit] at hm
        simp at hm
    · exact goodArr_pieces_bracketFree rest hrest (i + 1) pv hm

theorem goodObj_pieces_bracketFree (fields : List (String × JVal)) (h : goodObj fields = true) :
    ∀ pv ∈ piecesObj fields, ∀ s ∈ pv.1, bracketFreeB s = true := by
  cases fields with
  | nil => intro pv hmem; simp [piecesObj] at hmem
  | cons kv rest =>
    obtain ⟨k, v⟩ := kv
    simp only [goodObj, Bool.and_eq_true] at h
    obtain ⟨⟨⟨hbf, _⟩, hgood⟩, hrest⟩ := h
    intro pv hmem
    rw [piecesObj_cons] at hmem
    rcases List.mem_append.mp hmem with hm | hm
    · obtain ⟨qv, hqv, rfl⟩ := List.mem_map.mp hm
      intro s hs
      rcases List.mem_cons.mp hs with rfl | hs
      · exact hbf
      · exact good_pieces_bracketFree v hgood qv hqv s hs
    · exact goodObj_pieces_bracketFree rest hrest pv hm

end

/-! ## Folding the insertions -/

theorem insertField_absent (go : JVal → JVal) (k : String) :
    ∀ fs : List (String × JVal), k ∉ fs.map Prod.fst →
      insertField go k fs = fs ++ [(k, go (JVal.obj []))] := by
  intro fs
  induction fs with
  | nil => intro _; rfl
  | cons kv rest ih =>
    obtain ⟨k', v'⟩ := kv
    intro h
    simp only [List.map_cons, List.mem_cons, not_or] at h
    simp only [insertField, if_neg (fun heq : k' = k => h.1 heq.symm)]
    rw [ih h.2]
    rfl

theorem insertField_update (go : JVal → JVal) (k : String) :
    ∀ (pre : List (String × JVal)) (u : JVal) (post : List (String × JVal)),
      k ∉ pre.map Prod.fst →
      insertField go k (pre ++ (k, u) :: post) = pre ++ (k, go u) :: post := by
  intro pre
  induction pre with
  | nil => intro u post _; simp [insertField]
  | cons kv rest ih =>
    obtain ⟨k', v'⟩ := kv
    intro u post h
    simp only [List.map_cons, List.mem_cons, not_or] at h
    simp only [List.cons_append, insertField, if_neg (fun heq : k' = k => h.1 heq.symm)]
    show (k', v') :: insertField go k (rest ++ (k, u) :: post) =
      (k', v') :: (rest ++ (k, go u) :: post)
    rw [ih u post h.2]

theorem buildFields_cons (acc : List (String × JVal)) (pv : List String × JVal)
    (pps : List (List String × JVal)) :
    buildFields acc (pv :: pps) = buildFields (insStep acc pv) pps := rfl

theorem buildFields_append (acc : List (String × JVal)) (A B : List (List String × JVal)) :
    buildFields acc (A ++ B) = buildFields (buildFields acc A) B := by
  simp [buildFields, List.foldl_append]

theorem buildVal_cons (t : JVal) (pv : List String × JVal) (pps : List (List String × JVal)) :
    buildVal t (pv :: pps) = buildVal (insertPath pv.1 pv.2 t) pps := rfl

theorem buildFields_grouped_present (k : String) :
    ∀ (pps : List (List String × JVal)) (pre : List (String × JVal)) (u : JVal),
      (∀ pv ∈ pps, ∃ segs, pv.1 = k :: segs) →
      k ∉ pre.map Prod.fst →
      buildFields (pre ++ [(k, u)]) pps =
        pre ++ [(k, buildVal u (pps.map (fun pv => (pv.1.tail, pv.2))))] := by
  intro pps
  induction pps with
  | nil => intro pre u _ _; rfl
  | cons pv ps ih =>
    intro pre u hheads hk
    obtain ⟨segs, hsegs⟩ := hheads pv (List.mem_cons_self _ _)
    rw [buildFields_cons]
    have hstep : insStep (pre ++ [(k, u)]) pv = pre ++ [(k, insertPath segs pv.2 u)] := by
      simp only [insStep, hsegs]
      exact insertField_update _ k pre u [] hk
    rw [hstep, ih pre _ (fun qv hqv => hheads qv (List.mem_cons_of_mem _ hqv)) hk]
    rw [List.map_cons, buildVal_cons]
    simp [hsegs]

theorem buildFields_grouped (k : String) (pv₀ : List String × JVal)
    (ps : List (List String × JVal)) (acc : List (String × JVal))
    (hheads : ∀ pv ∈ pv₀ :: ps, ∃ segs, pv.1 = k :: segs)
    (hk : k ∉ acc.map Prod.fst) :
    buildFields acc (pv₀ :: ps) =
      acc ++ [(k, buildVal (JVal.obj []) ((pv₀ :: ps).map (fun pv => (pv.1.tail, pv.2))))] := by
  obtain ⟨segs, hsegs⟩ := hheads pv₀ (List.mem_cons_self _ _)
  rw [buildFields_cons]
  have hstep : insStep acc pv₀ = acc ++ [(k, insertPath segs pv₀.2 (JVal.obj []))] := by
    simp only [insStep, hsegs]
    exact insertField_absent _ k acc hk
  rw [hstep, buildFields_grouped_present k ps acc _
    (fun qv hqv => hheads qv (List.mem_cons_of_mem _ hqv)) hk]
  rw [List.map_cons, buildVal_cons]
  simp [hsegs]

theorem rebuiltFields_cons (k : String) (v : JVal) (rest : List (String × JVal)) :
    rebuiltFields ((k, v) :: rest) =
      if (piecesP v).isEmpty then rebuiltFields rest
      else (k, rebuildVal v) :: rebuiltFields rest := by
  cases h : (piecesP v).isEmpty <;> simp [rebuiltFields, List.filter_cons, h]

/-- Folding all insertions of a good field list's paths into an
accumulator with disjoint keys appends exactly the rebuilt fields. -/
theorem buildFields_piecesObj : ∀ (fields acc : List (String × JVal)),
    goodObj fields = true →
    (∀ k ∈ fields.map Prod.fst, k ∉ acc.map Prod.fst) →
    buildFields acc (piecesObj fields) = acc ++ rebuiltFields fields := by
  intro fields
  induction fields with
  | nil => intro acc _ _; simp [piecesObj, buildFields, rebuiltFields]
  | cons kv rest ih =>
    obtain ⟨k, v⟩ := kv
    intro acc hgood hdisj
    simp only [goodObj, Bool.and_eq_true] at hgood
    obtain ⟨⟨⟨hbf, hnotin⟩, hgv⟩, hgrest⟩ := hgood
    have hkrest : ∀ kv ∈ rest, kv.1 ≠ k := by
      intro kv hkv
      rw [Bool.not_eq_true'] at hnotin
      have := List.any_eq_false.mp hnotin kv hkv
      simpa using this
    rw [piecesObj_cons, buildFields_append, rebuiltFields_cons]
    cases hp : piecesP v with
    | nil =>
      simp only [List.map_nil, List.isEmpty_nil, if_true]
      rw [show buildFields acc [] = acc from rfl]
      exact ih acc hgrest (fun k' hk' => hdisj k' (by simp [hk']))
    | cons p0 ps0 =>
      simp only [List.isEmpty_cons, if_false, List.map_cons]
      have hfirst : buildFields acc
          ((fun pv => (k :: pv.1, pv.2)) p0 :: ps0.map (fun pv => (k :: pv.1, pv.2))) =
          acc ++ [(k, buildVal (JVal.obj [])
            ((((fun pv => (k :: pv.1, pv.2)) p0 :: ps0.map (fun pv => (k :: pv.1, pv.2))).map
              (fun pv => (pv.1.tail, pv.2)))))] := by
        apply buildFields_grouped
        · intro pv hpv
          rcases List.mem_cons.mp hpv with rfl | hpv
          · exact ⟨p0.1, rfl⟩
          · obtain ⟨qv, _, rfl⟩ := List.mem_map.mp hpv
            exact ⟨qv.1, rfl⟩
        · exact hdisj k (by simp)
      rw [hfirst]
      have htails : (((fun pv => (k :: pv.1, pv.2)) p0 ::
          ps0.map (fun pv => (k :: pv.1, pv.2))).map (fun pv => (pv.1.tail, pv.2))) =
          p0 :: ps0 := by
        simp only [List.map_cons, List.map_map]
        refine congrArg₂ List.cons rfl ?_
        have hid : ∀ pv ∈ ps0, ((fun pv => (pv.1.tail, pv.2)) ∘
            (fun pv : List String × JVal => (k :: pv.1, pv.2))) pv = id pv := fun pv _ => rfl
        rw [List.map_congr_left hid, List.map_id]
      rw [htails]
      have hrb : buildVal (JVal.obj []) (p0 :: ps0) = rebuildVal v := by
        rw [show rebuildVal v = buildVal (JVal.obj []) (piecesP v) from rfl, hp]
      rw [hrb]
      rw [ih (acc ++ [(k, rebuildVal v)]) hgrest ?hdisj]
      · simp
      case hdisj =>
        intro k' hk'
        simp only [List.map_append, List.map_cons, List.map_nil, List.mem_append,
          List.mem_singleton, not_or]
        obtain ⟨kv, hkv, rfl⟩ := List.mem_map.mp hk'
        refine ⟨fun hmem => hdisj kv.1 ?_ hmem, hkrest kv hkv⟩
        simp only [List.map_cons, List.mem_cons]
        exact Or.inr (List.mem_map.mpr ⟨kv, hkv, rfl⟩)

theorem enumFieldsFrom_cons (i : Nat) (v : JVal) (rest : List JVal) :
    enumFieldsFrom i (v :: rest) = (natStr i, v) :: enumFieldsFrom (i + 1) rest := by
  simp [enumFieldsFrom, List.enumFrom]

/-- Under goodness, an array contributes exactly the paths of the mapping
whose keys are its rendered indices. -/
theorem piecesArr_eq_piecesObj_enum : ∀ (elems : List JVal) (i : Nat), goodArr elems = true →
    piecesArr i elems = piecesObj (enumFieldsFrom i elems) := by
  intro elems
  induction elems with
  | nil => intro i _; rfl
  | cons v rest ih =>
    intro i h
    simp only [goodArr, Bool.and_eq_true] at h
    obtain ⟨⟨hcomp, hgood⟩, hrest⟩ := h
    rw [piecesArr_cons, enumFieldsFrom_cons, piecesObj_cons, ih (i + 1) hrest]
    by_cases hc : isCompositeB v = true
    · rw [if_pos hc]
    · rw [Bool.not_eq_true] at hc
      have homit : isOmitB v = true := by simpa [hc] using hcomp
      rw [if_neg (by simp [hc]), isOmitB_pieces v homit]
      simp

theorem goodObj_enumFieldsFrom : ∀ (elems : List JVal) (i : Nat), goodArr elems = true →
    goodObj (enumFieldsFrom i elems) = true := by
  intro elems
  induction elems with
  | nil => intro i _; rfl
  | cons v rest ih =>
    intro i h
    simp only [goodArr, Bool.and_eq_true] at h
    obtain ⟨⟨hcomp, hgood⟩, hrest⟩ := h
    rw [enumFieldsFrom_cons]
    simp only [goodObj, Bool.and_eq_true]
    refine ⟨⟨⟨bracketFreeB_natStr i, ?_⟩, hgood⟩, ih (i + 1) hrest⟩
    rw [Bool.not_eq_true', List.any_eq_false]
    intro kv hkv
    obtain ⟨je, hje, rfl⟩ := List.mem_map.mp hkv
    obtain ⟨j, e⟩ := je
    have hj : i + 1 ≤ j := (List.mk_mem_enumFrom_iff_le_and_getElem?_sub.mp hje).1
    intro heq
    have := natStr_inj j i (by simpa using heq)
    omega

theorem buildVal_obj (pps : List (List String × JVal)) :
    ∀ fs : List (String × JVal), (∀ pv ∈ pps, pv.1 ≠ []) →
      buildVal (JVal.obj fs) pps = JVal.obj (buildFields fs pps) := by
  induction pps with
  | nil => intro fs _; rfl
  | cons pv ps ih =>
    intro fs hne
    rw [buildVal_cons, buildFields_cons]
    cases hp : pv.1 with
    | nil => exact absurd hp (hne pv (List.mem_cons_self _ _))
    | cons k segs =>
      have hstep : insStep fs pv = insertField (insertPath segs pv.2) k fs := by
        simp only [insStep, hp]
      rw [show insertPath (k :: segs) pv.2 (JVal.obj fs) =
          JVal.obj (insertField (insertPath segs pv.2) k fs) from rfl, hstep]
      exact ih _ (fun qv hqv => hne qv (List.mem_cons_of_mem _ hqv))

theorem piecesObj_rebuiltFields : ∀ F : List (String × JVal),
    (∀ kv ∈ F, piecesP (rebuildVal kv.2) = piecesP kv.2) →
    piecesObj (rebuiltFields F) = piecesObj F := by
  intro F
  induction F with
  | nil => intro _; rfl
  | cons kv rest ih =>
    obtain ⟨k, v⟩ := kv
    intro h
    rw [rebuiltFields_cons, piecesObj_cons]
    cases hp : (piecesP v).isEmpty with
    | true =>
      rw [if_pos rfl]
      have hpv : piecesP v = [] := by simpa using hp
      rw [hpv, List.map_nil, List.nil_append]
      exact ih (fun qv hqv => h qv (List.mem_cons_of_mem _ hqv))
    | false =>
      rw [if_neg (by simp)]
      rw [piecesObj_cons, h (k, v) (List.mem_cons_self _ _),
        ih (fun qv hqv => h qv (List.mem_cons_of_mem _ hqv))]

mutual

/-- Rebuilding a good value from its paths yields a value with the same
paths. -/
theorem pieces_rebuild (v : JVal) (h : good v = true) :
    piecesP (rebuildVal v) = piecesP v := by
  cases v with
  | obj fields =>
    have hgo : goodObj fields = true := h
    have h1 : rebuildVal (JVal.obj fields) = JVal.obj (rebuiltFields fields) := by
      rw [show rebuildVal (JVal.obj fields) = buildVal (JVal.obj []) (piecesObj fields) from rfl,
        buildVal_obj (piecesObj fields) [] (piecesObj_ne_nil_path fields),
        buildFields_piecesObj fields [] hgo (by simp), List.nil_append]
    rw [h1]
    show piecesObj (rebuiltFields fields) = piecesObj fields
    exact piecesObj_rebuiltFields fields (pieces_rebuild_obj fields hgo)
  | arr elems =>
    have hga : goodArr elems = true := h
    have hgo := goodObj_enumFieldsFrom elems 0 hga
    have hap := piecesArr_eq_piecesObj_enum elems 0 hga
    have hvals : ∀ kv ∈ enumFieldsFrom 0 elems,
        piecesP (rebuildVal kv.2) = piecesP kv.2 := by
      intro kv hkv
      obtain ⟨je, hje, rfl⟩ := List.mem_map.mp hkv
      obtain ⟨j, e⟩ := je
      have h3 := List.mk_mem_enumFrom_iff_le_and_getElem?_sub.mp hje
      have he : e ∈ elems := List.getElem?_mem h3.2
      exact pieces_rebuild_arr elems hga e he
    have h1 : rebuildVal (JVal.arr elems) =
        JVal.obj (rebuiltFields (enumFieldsFrom 0 elems)) := by
      rw [show rebuildVal (JVal.arr elems) = buildVal (JVal.obj []) (piecesArr 0 elems) from rfl,
        hap, buildVal_obj _ [] (piecesObj_ne_nil_path _),
        buildFields_piecesObj _ [] hgo (by simp), List.nil_append]
    rw [h1]
    show piecesObj (rebuiltFields (enumFieldsFrom 0 elems)) = piecesArr 0 elems
    rw [piecesObj_rebuiltFields _ hvals, ← hap]
  | str s => rfl
  | num n => rfl
  | bool b => rfl
  | null => rfl
  | undef => rfl
  | func => rfl
  | symbol => rfl

theorem pieces_rebuild_arr (elems : List JVal) (h : goodArr elems = true) :
    ∀ e ∈ elems, piecesP (rebuildVal e) = piecesP e := by
  cases elems with
  | nil => intro e he; simp at he
  | cons v rest =>
    simp only [goodArr, Bool.and_eq_true] at h
    obtain ⟨⟨hcomp, hgood⟩, hrest⟩ := h
    intro e he
    rcases List.mem_cons.mp he with heq | he
    · rw [heq]
      exact pieces_rebuild v hgood
    · exact pieces_rebuild_arr rest hrest e he

theorem pieces_rebuild_obj (fields : List (String × JVal)) (h : goodObj fields = true) :
    ∀ kv ∈ fields, piecesP (rebuildVal kv.2) = piecesP kv.2 := by
  cases fields with
  | nil => intro kv hkv; simp at hkv
  | cons kv₀ rest =>
    obtain ⟨k, v⟩ := kv₀
    simp only [goodObj, Bool.and_eq_true] at h
    obtain ⟨⟨⟨hbf, hnotin⟩, hgood⟩, hrest⟩ := h
    intro kv hkv
    rcases List.mem_cons.mp hkv with heq | hkv
    · rw [heq]
      exact pieces_rebuild v hgood
    · exact pieces_rebuild_obj rest hrest kv hkv

end

theorem reconstruct_rendered : ∀ (pps : List (List String × JVal)) (acc : List (String × JVal)),
    (∀ pv ∈ pps, pv.1 ≠ [] ∧ ∀ s ∈ pv.1, bracketFreeB s = true) →
    List.foldl
      (fun acc kv => insertField (insertPath (parseKey kv.1).2 kv.2) (parseKey kv.1).1 acc)
      acc (pps.map (fun pv => (renderPath pv.1, pv.2))) = buildFields acc pps := by
  intro pps
  induction pps with
  | nil => intro acc _; rfl
  | cons pv ps ih =>
    intro acc hgood
    obtain ⟨hne, hbf⟩ := hgood pv (List.mem_cons_self _ _)
    cases hp : pv.1 with
    | nil => exact absurd hp hne
    | cons k segs =>
      rw [hp] at hbf
      have hparse : parseKey (renderPath (k :: segs)) = (k, segs) :=
        parseKey_render k segs (hbf k (List.mem_cons_self _ _))
          (fun s hs => hbf s (List.mem_cons_of_mem _ hs))
      simp only [List.map_cons, List.foldl_cons, hp]
      rw [hparse, buildFields_cons]
      have hstep : insStep acc pv = insertField (insertPath segs pv.2) k acc := by
        simp only [insStep, hp]
      rw [hstep]
      exact ih _ (fun qv hqv => hgood qv (List.mem_cons_of_mem _ hqv))

theorem reconstruct_pieces (data : List (String × JVal)) (h : goodObj data = true) :
    reconstruct ((piecesObj data).map (fun pv => (renderPath pv.1, pv.2))) =
      buildFields [] (piecesObj data) := by
  show List.foldl _ [] ((piecesObj data).map (fun pv => (renderPath pv.1, pv.2))) = _
  exact reconstruct_rendered (piecesObj data) []
    (fun pv hpv => ⟨piecesObj_ne_nil_path data pv hpv,
      goodObj_pieces_bracketFree data h pv hpv⟩)

/-- C9 (counterexample): the input mapping `{a: 1, "a[b]": 2}` flattens to
`[['a', 1], ['a[b]', 2]]` — no empty-bracket key, no duplicate key — yet
rebuilding a mapping from those pairs by parsing their bracket-path keys
merges both under the base key `a`, and re-flattening yields only
`[['a[b]', 2]]`. -/
theorem C9_cex :
    formatDataPieces [("a", JVal.num 1), ("a[b]", JVal.num 2)] =
      [("a", JVal.num 1), ("a[b]", JVal.num 2)] ∧
    ((formatDataPieces [("a", JVal.num 1), ("a[b]", JVal.num 2)]).map Prod.fst).Nodup ∧
    (∀ key ∈ (formatDataPieces [("a", JVal.num 1), ("a[b]", JVal.num 2)]).map Prod.fst,
      ¬ List.IsInfix ['[', ']'] key.data) ∧
    formatDataPieces (reconstruct
        (formatDataPieces [("a", JVal.num 1), ("a[b]", JVal.num 2)])) ≠
      formatDataPieces [("a", JVal.num 1), ("a[b]", JVal.num 2)] :=
  ⟨rfl, by decide, by decide,
    fun hcontra => absurd (congrArg List.length hcontra) (by decide)⟩

/-- C9 (amended): restricted to input trees all of whose mapping keys are
bracket-free (contain neither `[` nor `]`) and unrepeated, and all of
whose array elements are themselves arrays/mappings or omit-worthy (so
the flattening has no empty-bracket keys and no duplicate keys),
rebuilding a mapping from the flat pairs by parsing their bracket-path
keys and flattening again reproduces the original flat pair sequence. -/
theorem C9_thm (data : List (String × JVal)) (h : goodObj data = true) :
    formatDataPieces (reconstruct (formatDataPieces data)) = formatDataPieces data := by
  calc formatDataPieces (reconstruct (formatDataPieces data))
      = formatDataPieces (buildFields [] (piecesObj data)) := by
        rw [formatDataPieces_pieces data, reconstruct_pieces data h]
    _ = formatDataPieces (rebuiltFields data) := by
        rw [buildFields_piecesObj data [] h (by simp), List.nil_append]
    _ = (piecesObj (rebuiltFields data)).map (fun pv => (renderPath pv.1, pv.2)) :=
        formatDataPieces_pieces _
    _ = (piecesObj data).map (fun pv => (renderPath pv.1, pv.2)) := by
        rw [piecesObj_rebuiltFields data (pieces_rebuild_obj data h)]
    _ = formatDataPieces data := (formatDataPieces_pieces data).symm

/-- C9 (witness): the amended round trip applied to the spec's own nested
example, extended with a null-valued key. -/
theorem C9_wit :
    goodObj [("values", JVal.arr [JVal.obj [("a", JVal.str "a"), ("b", JVal.str "b")]]),
      ("n", JVal.null)] = true ∧
    formatDataPieces (reconstruct (formatDataPieces
        [("values", JVal.arr [JVal.obj [("a", JVal.str "a"), ("b", JVal.str "b")]]),
          ("n", JVal.null)])) =
      formatDataPieces
        [("values", JVal.arr [JVal.obj [("a", JVal.str "a"), ("b", JVal.str "b")]]),
          ("n", JVal.null)] :=
  ⟨by decide,
    C9_thm [("values", JVal.arr [JVal.obj [("a", JVal.str "a"), ("b", JVal.str "b")]]),
      ("n", JVal.null)] (by decide)⟩
